import Mathlib

/-!
Verification development for the real-time collaboration subsystem
(`app/routers/collaboration.py` and `app/services/validation.py`).

The Python code is shallowly embedded: dictionaries become association
lists, JSON values become an inductive type, `asyncio` tasks become
records with an explicit fire time and a liveness flag, wall-clock time
becomes a rational-number parameter, and the storage/auth collaborators
become records of abstract functions.  Exceptions raised inside the
validator are modelled with `Except`; everywhere else the embedded
functions are total, mirroring the fact that the corresponding Python
code catches its exceptions.
-/

namespace Collab

/-! ### JSON values (payloads of inbound websocket messages) -/

/-- A JSON value as received by `websocket.receive_json()`.  Python
booleans are kept separate from numbers; `isPyNumber` below accounts for
the fact that `bool` is a subclass of `int` in Python. -/
inductive JValue where
  | null : JValue
  | bool (b : Bool) : JValue
  | num (q : ℚ) : JValue
  | str (s : String) : JValue
  | arr (xs : List JValue) : JValue
  | obj (fields : List (String × JValue)) : JValue

/-- Dictionary indexing `d[k]` / membership lookup on a JSON object. -/
def lookupField (fields : List (String × JValue)) (k : String) : Option JValue :=
  (fields.find? (fun p => p.1 == k)).map (fun p => p.2)

/-- Python `k in d` on a JSON object. -/
def hasField (fields : List (String × JValue)) (k : String) : Bool :=
  fields.any (fun p => p.1 == k)

/-- Python `isinstance(v, (int, float))`.  `True`/`False` satisfy this
test because `bool` subclasses `int` in Python. -/
def isPyNumber : JValue → Bool
  | .num _ => true
  | .bool _ => true
  | _ => false

/-- The type-specific part of `validate_message` (the `if`/`elif` chain
on `message_type`).  `some r` models an early `return r`; `none` means
control falls through to the timestamp check. -/
def typeCheck (message_type : String) (data : List (String × JValue)) :
    Option (Bool × String) :=
  if message_type = "cursor_move" then
    match lookupField data "position" with
    | none => some (false, "Missing position field")
    | some (JValue.obj fields) =>
      match lookupField fields "x", lookupField fields "y" with
      | some x, some y =>
        if isPyNumber x && isPyNumber y then none
        else some (false, "Position coordinates must be numbers")
      | _, _ =>
        some (false, "Invalid position format, must contain x and y coordinates")
    | some _ =>
      some (false, "Invalid position format, must contain x and y coordinates")
  else if message_type = "diagram_update" then
    if hasField data "data" then none else some (false, "Missing data field")
  else
    none

/-- The trailing timestamp check of `validate_message`, in an error
monad: `data["timestamp"].replace("Z", "+00:00")` raises
`AttributeError` when the timestamp value is not a string, and that
exception is *not* caught by the inner `except (ValueError, TypeError)`
clause — it propagates to the outer `except Exception`.  `iso` models
`datetime.fromisoformat` succeeding (`true`) or raising `ValueError`
(`false`), which the inner handler turns into a normal failure. -/
def timestampCheck (iso : String → Bool) (data : List (String × JValue)) :
    Except String (Bool × String) :=
  match lookupField data "timestamp" with
  | none => Except.ok (true, "")
  | some (JValue.str s) =>
    if iso (s.replace "Z" "+00:00") then Except.ok (true, "")
    else Except.ok (false, "Invalid timestamp format")
  | some _ => Except.error "timestamp value has no replace method"

/-- The body of `validate_message` (everything inside the outer `try`). -/
def validateMessageE (iso : String → Bool) (message_type : String)
    (data : List (String × JValue)) : Except String (Bool × String) :=
  match typeCheck message_type data with
  | some r => Except.ok r
  | none => timestampCheck iso data

/-- `validate_message` with its outer `except Exception` handler. -/
def validate_message (iso : String → Bool) (message_type : String)
    (data : List (String × JValue)) : Bool × String :=
  match validateMessageE iso message_type data with
  | Except.ok r => r
  | Except.error e => (false, "Message validation error: " ++ e)

/-! ### Rate limiter (`RateLimiter` in `collaboration.py`) -/

/-- `RateLimiter.__init__`: a sustained rate (a Python float, embedded
as ℚ), a burst allowance, and the recorded admission timestamps. -/
structure RateLimiter where
  maxPerSecond : ℚ
  burstAllowance : ℕ
  timestamps : List ℚ

/-- `RateLimiter.is_allowed`, with `time.time()` passed explicitly.
Returns the decision together with the updated limiter. -/
def RateLimiter.is_allowed (rl : RateLimiter) (now : ℚ) : Bool × RateLimiter :=
  let ts := rl.timestamps.filter (fun t => decide (now - t < 1))
  if rl.maxPerSecond + rl.burstAllowance ≤ (ts.length : ℚ) then
    (false, { rl with timestamps := ts })
  else
    (true, { rl with timestamps := ts ++ [now] })

/-- Run a limiter over a sequence of admission-check times; returns the
final limiter state and the list of admitted times. -/
def rlRun (rl : RateLimiter) : List ℚ → RateLimiter × List ℚ
  | [] => (rl, [])
  | t :: ts =>
    let step := rl.is_allowed t
    let rest := rlRun step.2 ts
    (rest.1, if step.1 then t :: rest.2 else rest.2)

/-! ### Permission gate (`app/services/validation.py`) -/

/-- `Permission` enum from `diagram_models.py`. -/
inductive Perm where
  | read : Perm
  | edit : Perm
deriving DecidableEq

/-- The fields of a stored diagram that the collaboration code inspects. -/
structure DiagramRec where
  id : String
  userId : String
deriving DecidableEq

/-- The storage/auth collaborator (`dynamodb_service`), abstracted to
the three calls the embedded code makes. -/
structure DynamoService where
  getDiagram : String → String → Option DiagramRec
  getSharedDiagramsForUser : String → List DiagramRec
  checkCollaboratorPermission : String → String → Option Perm

/-- `validate_sharing_permission(user_id, diagram_id, required_permission)`. -/
def validate_sharing_permission (db : DynamoService) (user_id diagram_id : String)
    (required : Perm) : Bool × String :=
  match db.getDiagram user_id diagram_id with
  | some _ => (true, "")
  | none =>
    match db.checkCollaboratorPermission diagram_id user_id with
    | none => (false, "Access denied: You do not have permission to access this diagram")
    | some p =>
      if required = Perm.edit ∧ p = Perm.read then
        (false, "Access denied: You only have read permission for this diagram")
      else (true, "")

/-- `validate_diagram_access(user_id, diagram_id, action)`. -/
def validate_diagram_access (db : DynamoService) (user_id diagram_id action : String) :
    Bool × String :=
  let required :=
    if action = "update" ∨ action = "delete" ∨ action = "share" then Perm.edit
    else Perm.read
  validate_sharing_permission db user_id diagram_id required

/-! ### Session registry and broadcaster -/

/-- One `(websocket, user_id)` pair of `active_connections[diagram_id]`;
websockets are identified by a natural-number handle. -/
abbrev Conn := ℕ × String

/-- The registry entry `active_connections.get(diagram_id)` for the one
document under consideration; `none` means `diagram_id not in
active_connections`. -/
abbrev RegEntry := Option (List Conn)

/-- The connections registered in an entry (empty when absent). -/
def entryConns : RegEntry → List Conn
  | none => []
  | some cs => cs

/-- The test `exclude_user_id and user_id == exclude_user_id`: Python
truthiness makes `None` and the empty string skip the exclusion. -/
def isExcluded (exclude : Option String) (uid : String) : Bool :=
  match exclude with
  | none => false
  | some e => !(e == "") && uid == e

/-- The removal loop at the end of `notify_collaborators`: for each dead
pair, `remove` it from the list if its websocket still occurs there.
(Python `list.remove` raises when the exact pair is absent; the guard on
the websocket makes that reachable only if one websocket were registered
under two different user ids, which never happens, so a total `erase` is
a faithful embedding.) -/
def pruneDisconnected (disconnected : List Conn) (conns : List Conn) : List Conn :=
  disconnected.foldl
    (fun cs c => if (cs.map Prod.fst).contains c.1 then cs.erase c else cs) conns

/-- `notify_collaborators(diagram_id, message, exclude_user_id)`,
restricted to the entry of the target document.  `sendOk w` tells
whether `websocket.send_json` succeeds on handle `w` (a dead connection
raises).  Returns the updated entry and the list of connections the
message was delivered to.  Note: an entry emptied by pruning is *not*
deleted here. -/
def notify_collaborators (sendOk : ℕ → Bool) (entry : RegEntry)
    (exclude : Option String) : RegEntry × List Conn :=
  match entry with
  | none => (none, [])
  | some conns =>
    let delivered := conns.filter (fun c => !isExcluded exclude c.2 && sendOk c.1)
    let disconnected := conns.filter (fun c => !isExcluded exclude c.2 && !sendOk c.1)
    (some (pruneDisconnected disconnected conns), delivered)

/-- The `finally` block of `collaborate_on_diagram` for a handler whose
authenticated user is `user_id`: drop every connection of that user,
delete the entry if it became empty, then broadcast `user_left` (no
exclusion) to whatever remains.  The Python guard `and user_id` makes
the block a no-op for a falsy user id (modelled as `""`).  Returns the
final entry and the connections the `user_left` message reached. -/
def handlerTeardown (sendOk : ℕ → Bool) (user_id : String) (entry : RegEntry) :
    RegEntry × List Conn :=
  match entry with
  | none => (none, [])
  | some conns =>
    if user_id = "" then (some conns, [])
    else
      let remaining := conns.filter (fun c => !(c.2 == user_id))
      let entry1 : RegEntry := if remaining.isEmpty then none else some remaining
      notify_collaborators sendOk entry1 none

/-! ### Debounced persistence scheduler (`debounced_save_diagram`) -/

/-- An `asyncio` task created by `debounced_save_diagram`: the closure
captures the document, the scheduling user and the payload; the task
fires 5 seconds after creation.  `live` is false once the task was
cancelled or has completed (Python `task.done()`). -/
structure SaveTask where
  doc : String
  user : String
  payload : ℕ
  fireAt : ℚ
  live : Bool
deriving DecidableEq

/-- The value of `debounced_saves[diagram_id]`:
`(last_update_time, pending_data, save_task)`, the task referenced by
its index in the task list. -/
structure PendingSave where
  schedAt : ℚ
  payload : ℕ
  taskId : ℕ
deriving DecidableEq

/-- Scheduler state: every task ever created (indices are task ids), the
`debounced_saves` dict as an association list, and the calls that
reached `dynamodb_service.update_diagram` as `(owner, diagram_id,
payload)` triples. -/
structure SchedState where
  tasks : List SaveTask
  saves : List (String × PendingSave)
  writes : List (String × String × ℕ)
deriving DecidableEq

/-- `debounced_saves.get(diagram_id)`. -/
def lookupSave (d : String) (saves : List (String × PendingSave)) : Option PendingSave :=
  (saves.find? (fun p => p.1 == d)).map (fun p => p.2)

/-- `debounced_saves[diagram_id] = entry` (replace or insert). -/
def setSave (d : String) (e : PendingSave) (saves : List (String × PendingSave)) :
    List (String × PendingSave) :=
  if (saves.map Prod.fst).contains d then
    saves.map (fun p => if p.1 == d then (d, e) else p)
  else saves ++ [(d, e)]

/-- `if diagram_id in debounced_saves: del debounced_saves[diagram_id]`. -/
def eraseSave (d : String) (saves : List (String × PendingSave)) :
    List (String × PendingSave) :=
  saves.filter (fun p => !(p.1 == d))

/-- `if not existing_task.done(): existing_task.cancel()`. -/
def cancelTask (tid : ℕ) (tasks : List SaveTask) : List SaveTask :=
  match tasks[tid]? with
  | some t => if t.live then tasks.set tid { t with live := false } else tasks
  | none => tasks

/-- Owner resolution inside `save_after_delay`: `get_diagram(user_id,
diagram_id)` or, failing that, the shared-diagram lookup. -/
def resolveOwner (db : DynamoService) (user_id diagram_id : String) : Option String :=
  match db.getDiagram user_id diagram_id with
  | some g => some g.userId
  | none =>
    ((db.getSharedDiagramsForUser user_id).find? (fun g => g.id == diagram_id)).map
      (fun g => g.userId)

/-- `debounced_save_diagram(diagram_id, user_id, update_data)` called at
time `now`: cancel the document's pending task if it is not done, create
a task firing at `now + 5`, and store the new `PendingSave`. -/
def debounced_save_diagram (d u : String) (payload : ℕ) (now : ℚ)
    (s : SchedState) : SchedState :=
  let tasks1 :=
    match lookupSave d s.saves with
    | some e => cancelTask e.taskId s.tasks
    | none => s.tasks
  { tasks := tasks1 ++ [⟨d, u, payload, now + 5, true⟩],
    saves := setSave d ⟨now, payload, tasks1.length⟩ s.saves,
    writes := s.writes }

/-- Body of `save_after_delay` for the task with index `i`, run when the
wall clock reaches `now`: a live, due task performs the write (when the
owner resolves; otherwise only the not-found message is printed), then
the `finally` clause removes the document's `debounced_saves` entry.
The task is no longer live afterwards. -/
def fireTask (db : DynamoService) (now : ℚ) (s : SchedState) (i : ℕ) : SchedState :=
  match s.tasks[i]? with
  | none => s
  | some t =>
    if t.live && decide (t.fireAt ≤ now) then
      { tasks := s.tasks.set i { t with live := false },
        saves := eraseSave t.doc s.saves,
        writes := s.writes ++
          (match resolveOwner db t.user t.doc with
           | some owner => [(owner, t.doc, t.payload)]
           | none => []) }
    else s

/-- Let the event loop run until wall-clock time `now`: every live task
whose fire time has been reached runs `save_after_delay`. -/
def advanceTime (db : DynamoService) (now : ℚ) (s : SchedState) : SchedState :=
  (List.range s.tasks.length).foldl (fireTask db now) s

/-- An event of the scheduler's event loop: a call to
`debounced_save_diagram` at a given time, or the clock reaching a given
time with no intervening call. -/
inductive SchedEvent where
  | save (d u : String) (payload : ℕ) (t : ℚ)
  | advance (t : ℚ)

/-- Process one event.  Before code scheduled for an earlier deadline
can be overtaken, the event loop runs it: a `save` at time `t` first
fires every task that was due at or before `t`. -/
def schedStep (db : DynamoService) (s : SchedState) : SchedEvent → SchedState
  | .save d u p t => debounced_save_diagram d u p t (advanceTime db t s)
  | .advance t => advanceTime db t s

/-- Run the scheduler from the module-initial state (`debounced_saves =
{}`, no tasks, no writes). -/
def schedRun (db : DynamoService) (evs : List SchedEvent) : SchedState :=
  evs.foldl (schedStep db) ⟨[], [], []⟩

/-! ### `diagram_update` dispatch in the `Active` message loop -/

/-- An outbound envelope (the fields sent for a permission failure:
`type`, `message`, `code`). -/
structure Envelope where
  type : String
  message : String
  code : String
deriving DecidableEq

/-- Result of dispatching one `diagram_update` message. -/
structure HandleResult where
  toSender : List Envelope
  entry : RegEntry
  sched : SchedState
  delivered : List Conn
  continues : Bool

/-- The `message_type == "diagram_update"` branch of the `Active` loop
in `collaborate_on_diagram`: check edit permission (denied ⇒ error
envelope to the sender, loop continues); on success schedule the
debounced save and broadcast the update — with *no* `exclude_user_id`
argument — to the document's connections.  The loop continues in every
case. -/
def handle_diagram_update (db : DynamoService) (diagram_id user_id : String)
    (payload : ℕ) (now : ℚ) (sendOk : ℕ → Bool) (entry : RegEntry)
    (sched : SchedState) : HandleResult :=
  let check := validate_diagram_access db user_id diagram_id "update"
  if check.1 then
    let sched1 := debounced_save_diagram diagram_id user_id payload now sched
    let noted := notify_collaborators sendOk entry none
    { toSender := [], entry := noted.1, sched := sched1,
      delivered := noted.2, continues := true }
  else
    { toSender := [⟨"error", check.2, "PERMISSION_DENIED"⟩], entry := entry,
      sched := sched, delivered := [], continues := true }

/-! ### Validator lemmas -/

/-- Every early return of the type-specific chain is a failure; success
falls through to the timestamp check. -/
theorem typeCheck_fst_false (mt : String) (d : List (String × JValue))
    (r : Bool × String) (h : typeCheck mt d = some r) : r.1 = false := by
  unfold typeCheck at h
  split at h
  · split at h
    · exact (Option.some.injEq _ _ ▸ h.symm) ▸ rfl
    · split at h
      · split at h
        · exact absurd h (by simp)
        · cases h; rfl
      · cases h; rfl
    · cases h; rfl
  · split at h
    · split at h
      · exact absurd h (by simp)
      · cases h; rfl
    · exact absurd h (by simp)

theorem validate_message_of_typeCheck_some (iso : String → Bool) (mt : String)
    (d : List (String × JValue)) (r : Bool × String) (h : typeCheck mt d = some r) :
    validate_message iso mt d = r := by
  unfold validate_message validateMessageE
  rw [h]

theorem validate_message_of_typeCheck_none (iso : String → Bool) (mt : String)
    (d : List (String × JValue)) (h : typeCheck mt d = none) :
    validate_message iso mt d =
      (match timestampCheck iso d with
       | Except.ok r => r
       | Except.error e => (false, "Message validation error: " ++ e)) := by
  unfold validate_message validateMessageE
  rw [h]

/-- **C10** — Validator totality: the embedded body of `validate_message`
signals Python exceptions through `Except.error`; the outer
`except Exception` handler converts every such error into a normal
`(False, reason)` result, so every call yields a boolean/reason pair.
In particular a non-string timestamp value (whose `.replace` raises
`AttributeError`) yields `(False, reason)` instead of propagating. -/
theorem validate_message_total (iso : String → Bool) (mt : String)
    (d : List (String × JValue)) (e : String) (v : JValue)
    (herr : validateMessageE iso mt d = Except.error e)
    (hts : lookupField d "timestamp" = some v) (hstr : ∀ s, v ≠ JValue.str s)
    (htc : typeCheck mt d = none) :
    validate_message iso mt d = (false, "Message validation error: " ++ e) ∧
      validate_message iso mt d =
        (false, "Message validation error: timestamp value has no replace method") := by
  constructor
  · unfold validate_message
    rw [herr]
  · rw [validate_message_of_typeCheck_none iso mt d htc]
    unfold timestampCheck
    rw [hts]
    cases v with
    | str s => exact absurd rfl (hstr s)
    | null => rfl
    | bool b => rfl
    | num q => rfl
    | arr xs => rfl
    | obj fs => rfl

/-- Witness for `validate_message_total`: a `ping` whose timestamp is
the number 3. -/
theorem validate_message_total_witness :
    validate_message (fun _ => false) "ping" [("timestamp", JValue.num 3)] =
      (false, "Message validation error: timestamp value has no replace method") :=
  (validate_message_total (fun _ => false) "ping" [("timestamp", JValue.num 3)]
    "timestamp value has no replace method" (JValue.num 3) rfl rfl
    (fun _ h => JValue.noConfusion h) rfl).1

theorem vm_ping (iso : String → Bool) : validate_message iso "ping" [] = (true, "") := rfl

theorem vm_cursor_missing (iso : String → Bool) (d : List (String × JValue))
    (h : lookupField d "position" = none) :
    validate_message iso "cursor_move" d = (false, "Missing position field") := by
  apply validate_message_of_typeCheck_some
  simp [typeCheck, h]

theorem vm_cursor_nonobj (iso : String → Bool) (d : List (String × JValue)) (v : JValue)
    (h : lookupField d "position" = some v) (hv : ∀ fs, v ≠ JValue.obj fs) :
    validate_message iso "cursor_move" d =
      (false, "Invalid position format, must contain x and y coordinates") := by
  apply validate_message_of_typeCheck_some
  cases v with
  | obj fs => exact absurd rfl (hv fs)
  | null => simp [typeCheck, h]
  | bool b => simp [typeCheck, h]
  | num q => simp [typeCheck, h]
  | str s => simp [typeCheck, h]
  | arr xs => simp [typeCheck, h]

theorem vm_cursor_nonnum (iso : String → Bool) (d : List (String × JValue))
    (fs : List (String × JValue)) (x y : JValue)
    (hpos : lookupField d "position" = some (JValue.obj fs))
    (hx : lookupField fs "x" = some x) (hy : lookupField fs "y" = some y)
    (hnum : isPyNumber x = false ∨ isPyNumber y = false) :
    validate_message iso "cursor_move" d = (false, "Position coordinates must be numbers") := by
  apply validate_message_of_typeCheck_some
  have hand : (isPyNumber x && isPyNumber y) = false := by
    rcases hnum with h | h <;> simp [h]
  simp [typeCheck, hpos, hx, hy, hand]

theorem vm_update_missing (iso : String → Bool) (d : List (String × JValue))
    (h : hasField d "data" = false) :
    validate_message iso "diagram_update" d = (false, "Missing data field") := by
  apply validate_message_of_typeCheck_some
  simp [typeCheck, h]

theorem vm_bad_timestamp (iso : String → Bool) (mt : String)
    (d : List (String × JValue)) (v : JValue)
    (hts : lookupField d "timestamp" = some v)
    (hbad : ∀ s, v = JValue.str s → iso (s.replace "Z" "+00:00") = false) :
    (validate_message iso mt d).1 = false := by
  cases htc : typeCheck mt d with
  | some r =>
    rw [validate_message_of_typeCheck_some iso mt d r htc]
    exact typeCheck_fst_false mt d r htc
  | none =>
    rw [validate_message_of_typeCheck_none iso mt d htc]
    unfold timestampCheck
    rw [hts]
    cases v with
    | str s => simp [hbad s rfl]
    | null => rfl
    | bool b => rfl
    | num q => rfl
    | arr xs => rfl
    | obj fsv => rfl

/-- **C8 (amended)** — Validator rules: `validate_message` accepts a
`ping` payload with no fields; rejects a `cursor_move` payload whose
position is missing, is not an object, or whose `x` or `y` is not
numeric (in particular `x = "a"` with numeric `y`); rejects a
`diagram_update` payload that lacks a `data` *field* (only presence is
checked — the value need not be an object); and, for every message
type, rejects any payload whose timestamp field is present but does not
parse as a valid date-time (non-string timestamps included). -/
theorem validator_rules (iso : String → Bool) (d dm dn dd dt : List (String × JValue))
    (v : JValue) (fs : List (String × JValue)) (x y : JValue) (mt : String) (w : JValue)
    (hm : lookupField dm "position" = none)
    (hn : lookupField dn "position" = some v) (hv : ∀ gs, v ≠ JValue.obj gs)
    (hpos : lookupField d "position" = some (JValue.obj fs))
    (hx : lookupField fs "x" = some x) (hy : lookupField fs "y" = some y)
    (hnum : isPyNumber x = false ∨ isPyNumber y = false)
    (hd : hasField dd "data" = false)
    (hts : lookupField dt "timestamp" = some w)
    (hbad : ∀ s, w = JValue.str s → iso (s.replace "Z" "+00:00") = false) :
    validate_message iso "ping" [] = (true, "") ∧
    validate_message iso "cursor_move" dm = (false, "Missing position field") ∧
    validate_message iso "cursor_move" dn =
      (false, "Invalid position format, must contain x and y coordinates") ∧
    validate_message iso "cursor_move" d = (false, "Position coordinates must be numbers") ∧
    validate_message iso "cursor_move"
      [("position", JValue.obj [("x", JValue.str "a"), ("y", JValue.num 1)])] =
      (false, "Position coordinates must be numbers") ∧
    validate_message iso "diagram_update" dd = (false, "Missing data field") ∧
    (validate_message iso mt dt).1 = false :=
  ⟨vm_ping iso, vm_cursor_missing iso dm hm, vm_cursor_nonobj iso dn v hn hv,
   vm_cursor_nonnum iso d fs x y hpos hx hy hnum,
   vm_cursor_nonnum iso _ [("x", JValue.str "a"), ("y", JValue.num 1)]
     (JValue.str "a") (JValue.num 1) rfl rfl rfl (Or.inl rfl),
   vm_update_missing iso dd hd, vm_bad_timestamp iso mt dt w hts hbad⟩

/-- Witness for `validator_rules` at concrete payloads. -/
theorem validator_rules_witness :
    validate_message (fun _ => false) "ping" [] = (true, "") ∧
    validate_message (fun _ => false) "cursor_move" [] = (false, "Missing position field") ∧
    validate_message (fun _ => false) "cursor_move" [("position", JValue.num 0)] =
      (false, "Invalid position format, must contain x and y coordinates") ∧
    validate_message (fun _ => false) "cursor_move"
      [("position", JValue.obj [("x", JValue.str "a"), ("y", JValue.num 1)])] =
      (false, "Position coordinates must be numbers") ∧
    validate_message (fun _ => false) "cursor_move"
      [("position", JValue.obj [("x", JValue.str "a"), ("y", JValue.num 1)])] =
      (false, "Position coordinates must be numbers") ∧
    validate_message (fun _ => false) "diagram_update" [] = (false, "Missing data field") ∧
    (validate_message (fun _ => false) "ping" [("timestamp", JValue.str "oops")]).1 = false :=
  validator_rules (fun _ => false) [("position", JValue.obj [("x", JValue.str "a"), ("y", JValue.num 1)])]
    [] [("position", JValue.num 0)] [] [("timestamp", JValue.str "oops")]
    (JValue.num 0) [("x", JValue.str "a"), ("y", JValue.num 1)]
    (JValue.str "a") (JValue.num 1) "ping" (JValue.str "oops")
    rfl rfl (fun gs h => JValue.noConfusion h) rfl rfl rfl (Or.inl rfl) rfl rfl
    (fun s h => rfl)

/-- Counterexample to C8 as stated: a `diagram_update` payload whose
`data` is the number 5 — not an object, so the payload "lacks a data
object" — is accepted by `validate_message`, because the code checks
only that the `data` key is present. -/
theorem validator_data_not_object_accepted :
    validate_message (fun _ => false) "diagram_update" [("data", JValue.num 5)] =
      (true, "") := rfl

/-! ### Registry and broadcaster lemmas -/

theorem pruneDisconnected_sublist (ds cs : List Conn) :
    (pruneDisconnected ds cs).Sublist cs := by
  induction ds generalizing cs with
  | nil => exact List.Sublist.refl cs
  | cons c ds ih =>
    have hstep : (if ((cs.map Prod.fst).contains c.1) then cs.erase c else cs).Sublist cs := by
      split
      · exact List.erase_sublist c cs
      · exact List.Sublist.refl cs
    exact (ih _).trans hstep

theorem pruneDisconnected_eq_filter (ds cs : List Conn) (hcs : cs.Nodup)
    (hds : ds.Nodup) (hsub : ∀ c ∈ ds, c ∈ cs) :
    pruneDisconnected ds cs = cs.filter (fun c => decide (c ∉ ds)) := by
  induction ds generalizing cs with
  | nil => simp [pruneDisconnected]
  | cons c ds ih =>
    have hc : c ∈ cs := hsub c (List.mem_cons_self c ds)
    have hcontains : (cs.map Prod.fst).contains c.1 = true := by
      rw [List.contains_iff_exists_mem_beq]
      exact ⟨c.1, List.mem_map_of_mem Prod.fst hc, by simp⟩
    have herase : cs.erase c = cs.filter (fun x => x != c) :=
      hcs.erase_eq_filter c
    have hstep : pruneDisconnected (c :: ds) cs =
        pruneDisconnected ds (cs.filter (fun x => x != c)) := by
      simp only [pruneDisconnected, List.foldl_cons, hcontains, if_pos, ← herase]
    rw [hstep, ih (cs.filter (fun x => x != c)) (hcs.filter _)
      (List.Nodup.of_cons hds) ?_, List.filter_filter]
    · apply List.filter_congr
      intro x _
      by_cases hx : x = c
      · subst hx
        simp [List.nodup_cons.mp hds |>.1]
      · simp [hx]
    · intro a ha
      have hane : a ≠ c := fun h => (List.nodup_cons.mp hds).1 (h ▸ ha)
      exact List.mem_filter.mpr ⟨hsub a (List.mem_cons_of_mem c ha), by simp [hane]⟩

theorem notify_none_eq (sendOk : ℕ → Bool) (ex : Option String) :
    notify_collaborators sendOk none ex = (none, []) := rfl

theorem notify_some_eq (sendOk : ℕ → Bool) (cs : List Conn) (ex : Option String) :
    notify_collaborators sendOk (some cs) ex =
      (some (pruneDisconnected
          (cs.filter (fun c => !isExcluded ex c.2 && !sendOk c.1)) cs),
        cs.filter (fun c => !isExcluded ex c.2 && sendOk c.1)) := rfl

theorem notify_delivered_mem (sendOk : ℕ → Bool) (e : RegEntry) (ex : Option String)
    (c : Conn) (h : c ∈ (notify_collaborators sendOk e ex).2) : c ∈ entryConns e := by
  cases e with
  | none => simp [notify_collaborators] at h
  | some cs =>
    rw [notify_some_eq] at h
    exact List.mem_of_mem_filter h

theorem notify_entry_mem (sendOk : ℕ → Bool) (e : RegEntry) (ex : Option String)
    (c : Conn) (h : c ∈ entryConns (notify_collaborators sendOk e ex).1) :
    c ∈ entryConns e := by
  cases e with
  | none => simp [notify_collaborators, entryConns] at h
  | some cs =>
    rw [notify_some_eq] at h
    exact (pruneDisconnected_sublist _ cs).subset h

/-- The `user_left` broadcast of the teardown block reaches exactly the
remaining members (those of other users) whose send succeeds. -/
theorem handlerTeardown_delivered (sendOk : ℕ → Bool) (u : String) (cs : List Conn)
    (hu : u ≠ "") :
    (handlerTeardown sendOk u (some cs)).2 =
      (cs.filter (fun c => !(c.2 == u))).filter (fun c => sendOk c.1) := by
  simp only [handlerTeardown]
  rw [if_neg hu]
  by_cases hrem : (cs.filter (fun c => !(c.2 == u))).isEmpty
  · rw [if_pos hrem, notify_none_eq]
    rw [List.isEmpty_iff] at hrem
    rw [hrem]
    rfl
  · rw [if_neg hrem, notify_some_eq]
    simp [isExcluded]

theorem handlerTeardown_entry_mem (sendOk : ℕ → Bool) (u : String) (cs : List Conn)
    (c : Conn) (h : c ∈ entryConns (handlerTeardown sendOk u (some cs)).1) :
    c ∈ cs.filter (fun x => !(x.2 == u)) ∨ (u = "" ∧ c ∈ cs) := by
  simp only [handlerTeardown] at h
  by_cases hu : u = ""
  · rw [if_pos hu] at h
    exact Or.inr ⟨hu, h⟩
  · rw [if_neg hu] at h
    by_cases hrem : (cs.filter (fun x => !(x.2 == u))).isEmpty
    · rw [if_pos hrem, notify_none_eq] at h
      simp [entryConns] at h
    · rw [if_neg hrem] at h
      exact Or.inl (notify_entry_mem _ _ _ c h)

/-! ### Claim theorems about the registry and broadcaster -/

/-- Counterexample to C4 as stated: pruning the single dead connection
of a document during a broadcast leaves the session registry with an
*empty entry* (`some []`) for that document instead of removing it. -/
theorem notify_leaves_empty_entry :
    notify_collaborators (fun _ => false) (some [((0 : ℕ), "a")]) none =
      (some [], []) := rfl

/-- **C4 (amended)** — Registry emptiness after teardown: the clean
disconnect teardown deletes the document's registry entry whenever
removing the leaving user's connections empties it (and an absent entry
stays absent); dead-connection pruning inside `notify_collaborators`,
by contrast, does not delete an entry that becomes empty. -/
theorem teardown_removes_empty_entry (sendOk : ℕ → Bool) (u : String)
    (cs : List Conn) (hu : u ≠ "") (hempty : cs.filter (fun c => !(c.2 == u)) = []) :
    (handlerTeardown sendOk u (some cs)).1 = none ∧
      handlerTeardown sendOk u none = (none, []) := by
  constructor
  · simp only [handlerTeardown]
    rw [if_neg hu, hempty]
    rfl
  · rfl

/-- Witness for `teardown_removes_empty_entry`: the last connection of
user `a` leaves. -/
theorem teardown_removes_empty_entry_witness :
    (handlerTeardown (fun _ => true) "a" (some [((0 : ℕ), "a")])).1 = none :=
  (teardown_removes_empty_entry (fun _ => true) "a" [((0 : ℕ), "a")]
    (by decide) (by decide)).1

/-- **C5** — Dead-connection handling: a registered connection `(w, u)`
whose send fails during a broadcast is pruned from the registry entry by
that same `notify_collaborators` call, is not among that broadcast's
deliveries, receives no deliveries from any later broadcast on the
resulting entry, and the teardown that its handler runs on transport
close — the same `finally` block a clean disconnect runs — broadcasts
`user_left` to exactly the remaining members whose sends succeed.
Broadcast failures are absorbed: `notify_collaborators` is a total
function of the registry state. -/
theorem dead_connection_pruned (sendOk sendOk2 : ℕ → Bool) (ex : Option String)
    (cs : List Conn) (w : ℕ) (u : String) (hnd : cs.Nodup) (hmem : (w, u) ∈ cs)
    (hfail : sendOk w = false) (hexc : isExcluded ex u = false) (hu : u ≠ "") :
    ((w, u) ∉ entryConns (notify_collaborators sendOk (some cs) ex).1) ∧
    ((w, u) ∉ (notify_collaborators sendOk (some cs) ex).2) ∧
    (∀ (sendOk3 : ℕ → Bool) (ex3 : Option String),
      (w, u) ∉ (notify_collaborators sendOk3
        (notify_collaborators sendOk (some cs) ex).1 ex3).2) ∧
    ((handlerTeardown sendOk2 u (notify_collaborators sendOk (some cs) ex).1).2 =
      ((entryConns (notify_collaborators sendOk (some cs) ex).1).filter
          (fun c => !(c.2 == u))).filter (fun c => sendOk2 c.1)) := by
  have hdiscmem : (w, u) ∈ cs.filter (fun c => !isExcluded ex c.2 && !sendOk c.1) :=
    List.mem_filter.mpr ⟨hmem, by simp [hexc, hfail]⟩
  have hprune : pruneDisconnected (cs.filter (fun c => !isExcluded ex c.2 && !sendOk c.1)) cs
      = cs.filter (fun c => decide (c ∉ cs.filter (fun x => !isExcluded ex x.2 && !sendOk x.1))) :=
    pruneDisconnected_eq_filter _ cs hnd (hnd.filter _) (fun c hc => List.mem_of_mem_filter hc)
  have hnotin : (w, u) ∉ entryConns (notify_collaborators sendOk (some cs) ex).1 := by
    rw [notify_some_eq]
    intro hcontra
    simp only [entryConns] at hcontra
    rw [hprune] at hcontra
    have := (List.mem_filter.mp hcontra).2
    simp only [decide_eq_true_eq] at this
    exact this hdiscmem
  refine ⟨hnotin, ?_, ?_, ?_⟩
  · rw [notify_some_eq]
    intro hcontra
    have := (List.mem_filter.mp hcontra).2
    simp [hexc, hfail] at this
  · intro sendOk3 ex3 hcontra
    exact hnotin (notify_delivered_mem sendOk3 _ ex3 (w, u) hcontra)
  · rw [notify_some_eq]
    exact handlerTeardown_delivered sendOk2 u _ hu

/-- Witness for `dead_connection_pruned`: two users, user `a`'s socket 0
is dead. -/
theorem dead_connection_pruned_witness :
    ((0 : ℕ), "a") ∉ entryConns
      (notify_collaborators (fun w => !(w == 0)) (some [((0 : ℕ), "a"), ((1 : ℕ), "b")]) none).1 :=
  (dead_connection_pruned (fun w => !(w == 0)) (fun _ => true) none
    [((0 : ℕ), "a"), ((1 : ℕ), "b")] 0 "a" (by decide) (by decide) rfl rfl
    (by decide)).1

/-- **C9** — Teardown removes by participant id, not by connection
identity: after the teardown for user `P` runs, no connection with
participant id `P` remains in the document's registry entry (all of
`P`'s simultaneous connections are deregistered at once), the `user_left`
broadcast reaches no connection of `P`, and no later broadcast on the
resulting entry delivers anything to a connection of `P`. -/
theorem teardown_removes_by_user (sendOk : ℕ → Bool) (P : String) (cs : List Conn)
    (hP : P ≠ "") :
    (∀ c ∈ entryConns (handlerTeardown sendOk P (some cs)).1, c.2 ≠ P) ∧
    (∀ c ∈ (handlerTeardown sendOk P (some cs)).2, c.2 ≠ P) ∧
    (∀ (sendOk2 : ℕ → Bool) (ex2 : Option String) (c : Conn),
      c ∈ (notify_collaborators sendOk2 (handlerTeardown sendOk P (some cs)).1 ex2).2 →
        c.2 ≠ P) := by
  have hofmem : ∀ c : Conn, c ∈ cs.filter (fun x => !(x.2 == P)) → c.2 ≠ P := by
    intro c hc
    have := (List.mem_filter.mp hc).2
    simp only [Bool.not_eq_true'] at this
    exact fun h => by simp [h] at this
  have hentry : ∀ c ∈ entryConns (handlerTeardown sendOk P (some cs)).1, c.2 ≠ P := by
    intro c hc
    rcases handlerTeardown_entry_mem sendOk P cs c hc with h | ⟨h, _⟩
    · exact hofmem c h
    · exact absurd h hP
  refine ⟨hentry, ?_, ?_⟩
  · intro c hc
    rw [handlerTeardown_delivered sendOk P cs hP] at hc
    exact hofmem c (List.mem_of_mem_filter hc)
  · intro sendOk2 ex2 c hc
    exact hentry c (notify_delivered_mem sendOk2 _ ex2 c hc)

/-- Witness for `teardown_removes_by_user`: user `a` holds sockets 0 and
1; after one of its handlers tears down, the surviving registered
connection `(2, "b")` is not one of user `a`'s. -/
theorem teardown_removes_by_user_witness : ((2 : ℕ), "b").2 ≠ "a" :=
  (teardown_removes_by_user (fun _ => true) "a"
    [((0 : ℕ), "a"), ((1 : ℕ), "a"), ((2 : ℕ), "b")] (by decide)).1
    ((2 : ℕ), "b") (by decide)

/-- Counterexample to C6 as stated: user `P` (the owner, hence
authorized) sends a `diagram_update`; the resulting broadcast *is*
delivered to `P`'s own connection `(1, "P")`, because the dispatch calls
`notify_collaborators` without an `exclude_user_id` argument. -/
theorem diagram_update_delivered_to_sender :
    ((1 : ℕ), "P") ∈ (handle_diagram_update
      ⟨fun u dg => if u == "P" && dg == "D" then some ⟨"D", "P"⟩ else none,
       fun _ => [], fun _ _ => none⟩
      "D" "P" 7 0 (fun _ => true) (some [((1 : ℕ), "P"), ((2 : ℕ), "Q")])
      ⟨[], [], []⟩).delivered := by decide

/-- **C6 (amended)** — Broadcast of an authorized `diagram_update` from
participant `P` is delivered to every connection registered for the
document whose send succeeds — the sender's own connections included:
unlike `cursor_move` and the presence events, the `diagram_update`
dispatch applies no sender exclusion. -/
theorem diagram_update_broadcast_all (db : DynamoService) (d P : String)
    (payload : ℕ) (now : ℚ) (sendOk : ℕ → Bool) (cs : List Conn) (sched : SchedState)
    (hperm : (validate_diagram_access db P d "update").1 = true) :
    (handle_diagram_update db d P payload now sendOk (some cs) sched).delivered =
      cs.filter (fun c => sendOk c.1) := by
  simp only [handle_diagram_update, hperm, if_true, notify_some_eq]
  apply List.filter_congr
  intro c _
  simp [isExcluded]

/-- Witness for `diagram_update_broadcast_all`: the owner `P` updates;
both registered connections (one of them `P`'s own) receive it. -/
theorem diagram_update_broadcast_all_witness :
    (handle_diagram_update
      ⟨fun u dg => if u == "P" && dg == "D" then some ⟨"D", "P"⟩ else none,
       fun _ => [], fun _ _ => none⟩
      "D" "P" 7 0 (fun _ => true) (some [((1 : ℕ), "P"), ((2 : ℕ), "Q")])
      ⟨[], [], []⟩).delivered =
      List.filter (fun c => (fun _ => true) c.1) [((1 : ℕ), "P"), ((2 : ℕ), "Q")] :=
  diagram_update_broadcast_all
    ⟨fun u dg => if u == "P" && dg == "D" then some ⟨"D", "P"⟩ else none,
     fun _ => [], fun _ _ => none⟩
    "D" "P" 7 0 (fun _ => true) [((1 : ℕ), "P"), ((2 : ℕ), "Q")] ⟨[], [], []⟩ rfl

/-- **C7** — Permission-denied atomicity: a participant `P` who is not
the owner and whose stored collaborator permission is read-only sends
`diagram_update`; the dispatch result is exactly: one error envelope
with code `PERMISSION_DENIED` to the sender, the registry entry
untouched, the persistence scheduler's state untouched (no save
scheduled), no broadcast delivery, and the message loop continuing. -/
theorem permission_denied_atomic (db : DynamoService) (d P : String) (payload : ℕ)
    (now : ℚ) (sendOk : ℕ → Bool) (entry : RegEntry) (sched : SchedState)
    (hown : db.getDiagram P d = none)
    (hcol : db.checkCollaboratorPermission d P = some Perm.read) :
    handle_diagram_update db d P payload now sendOk entry sched =
      ⟨[⟨"error", "Access denied: You only have read permission for this diagram",
          "PERMISSION_DENIED"⟩], entry, sched, [], true⟩ := by
  have hcheck : validate_diagram_access db P d "update" =
      (false, "Access denied: You only have read permission for this diagram") := by
    simp [validate_diagram_access, validate_sharing_permission, hown, hcol]
  simp [handle_diagram_update, hcheck]

/-- Witness for `permission_denied_atomic`: read-only collaborator `C`
tries to update document `D`. -/
theorem permission_denied_atomic_witness :
    handle_diagram_update
      ⟨fun _ _ => none, fun _ => [],
       fun dg u => if dg == "D" && u == "C" then some Perm.read else none⟩
      "D" "C" 7 0 (fun _ => true) (some [((1 : ℕ), "C"), ((2 : ℕ), "B")])
      ⟨[], [], []⟩ =
      ⟨[⟨"error", "Access denied: You only have read permission for this diagram",
          "PERMISSION_DENIED"⟩], some [((1 : ℕ), "C"), ((2 : ℕ), "B")],
        ⟨[], [], []⟩, [], true⟩ :=
  permission_denied_atomic
    ⟨fun _ _ => none, fun _ => [],
     fun dg u => if dg == "D" && u == "C" then some Perm.read else none⟩
    "D" "C" 7 0 (fun _ => true) (some [((1 : ℕ), "C"), ((2 : ℕ), "B")])
    ⟨[], [], []⟩ rfl rfl

/-! ### Rate limiter lemmas -/

/-- Per-step soundness record of an admitted-timestamps list: each
admitted time saw strictly fewer than `c` earlier admissions inside its
own trailing 1-second window. -/
def StepOK (c : ℕ) (adm : List ℚ) : Prop :=
  ∀ (j : ℕ) (h : j < adm.length),
    ((adm.take j).filter (fun x => decide (adm.get ⟨j, h⟩ - x < 1))).length < c

theorem stepOK_nil (c : ℕ) : StepOK c [] := by
  intro j h
  exact absurd h (by simp)

theorem stepOK_append_left (c : ℕ) (as : List ℚ) (bs : List ℚ)
    (h : StepOK c (as ++ bs)) : StepOK c as := by
  intro j hj
  have hj' : j < (as ++ bs).length := by simp; omega
  have hget : (as ++ bs).get ⟨j, hj'⟩ = as.get ⟨j, hj⟩ := by
    simp [List.getElem_append_left hj]
  have := h j hj'
  rw [hget, List.take_append_of_le_length (Nat.le_of_lt hj)] at this
  exact this

/-- Filtering to a later window after filtering to an earlier one is the
same as filtering to the later window directly. -/
theorem filter_window_window (l : List ℚ) (a b : ℚ) (hab : a ≤ b) :
    (l.filter (fun x => decide (a - x < 1))).filter (fun x => decide (b - x < 1)) =
      l.filter (fun x => decide (b - x < 1)) := by
  rw [List.filter_filter]
  apply List.filter_congr
  intro x _
  by_cases hb : b - x < 1
  · have ha : a - x < 1 := by linarith
    simp [ha, hb]
  · simp [hb]

/-- Invariant of a limiter run: starting from a state whose in-window
content agrees with the admissions so far, every admission satisfies the
per-step bound. -/
theorem rlRun_stepOK (mps : ℚ) (ba c : ℕ) (hc : mps + (ba : ℚ) = (c : ℚ)) :
    ∀ (times : List ℚ) (st adm : List ℚ) (t0 : ℚ),
      times.Pairwise (· ≤ ·) → (∀ x ∈ times, t0 ≤ x) →
      (∀ u : ℚ, t0 ≤ u →
        st.filter (fun x => decide (u - x < 1)) = adm.filter (fun x => decide (u - x < 1))) →
      (∀ x ∈ adm, x ≤ t0) → StepOK c adm →
      StepOK c (adm ++ (rlRun ⟨mps, ba, st⟩ times).2) := by
  intro times
  induction times with
  | nil =>
    intro st adm t0 _ _ _ _ hok
    simpa [rlRun] using hok
  | cons t ts ih =>
    intro st adm t0 hsort hbound hrel hadm hok
    have ht0t : t0 ≤ t := hbound t (List.mem_cons_self t ts)
    have hpair := List.pairwise_cons.mp hsort
    have hfilt : st.filter (fun x => decide (t - x < 1)) =
        adm.filter (fun x => decide (t - x < 1)) := hrel t ht0t
    by_cases hd : mps + (ba : ℚ) ≤ ((st.filter (fun x => decide (t - x < 1))).length : ℚ)
    · -- rejected: state is pruned, admissions unchanged
      have hrun : (rlRun ⟨mps, ba, st⟩ (t :: ts)).2 =
          (rlRun ⟨mps, ba, st.filter (fun x => decide (t - x < 1))⟩ ts).2 := by
        simp only [rlRun, RateLimiter.is_allowed]
        rw [if_pos hd]
        simp
      rw [hrun]
      refine ih (st.filter (fun x => decide (t - x < 1))) adm t hpair.2 hpair.1 ?_
        (fun x hx => le_trans (hadm x hx) ht0t) hok
      intro u hu
      rw [filter_window_window st t u hu]
      exact hrel u (le_trans ht0t hu)
    · -- admitted: t is recorded and t is a new admission
      have hrun : (rlRun ⟨mps, ba, st⟩ (t :: ts)).2 =
          t :: (rlRun ⟨mps, ba, st.filter (fun x => decide (t - x < 1)) ++ [t]⟩ ts).2 := by
        simp only [rlRun, RateLimiter.is_allowed]
        rw [if_neg hd]
        simp
      rw [hrun, List.append_cons]
      refine ih (st.filter (fun x => decide (t - x < 1)) ++ [t]) (adm ++ [t]) t hpair.2
        hpair.1 ?_ ?_ ?_
      · intro u hu
        rw [List.filter_append, List.filter_append,
          filter_window_window st t u hu, hrel u (le_trans ht0t hu)]
      · intro x hx
        rcases List.mem_append.mp hx with h | h
        · exact le_trans (hadm x h) ht0t
        · simp at h
          exact le_of_eq h
      · -- StepOK for the extended admission list
        intro j hj
        rcases Nat.lt_or_ge j adm.length with hjlt | hjge
        · have hget : (adm ++ [t]).get ⟨j, hj⟩ = adm.get ⟨j, hjlt⟩ := by
            simp [List.getElem_append_left hjlt]
          rw [hget, List.take_append_of_le_length (Nat.le_of_lt hjlt)]
          exact hok j hjlt
        · have hjeq : j = adm.length := by
            have : j < adm.length + 1 := by simpa using hj
            omega
          subst hjeq
          have hget : (adm ++ [t]).get ⟨adm.length, hj⟩ = t := by simp
          rw [hget, List.take_append_of_le_length (le_refl _), List.take_length, ← hfilt]
          have hlt : ((st.filter (fun x => decide (t - x < 1))).length : ℚ) < (c : ℚ) := by
            rw [← hc]
            exact lt_of_not_ge hd
          exact_mod_cast hlt

/-- From the per-step bound, any trailing 1-second window contains at
most `c` admitted times. -/
theorem stepOK_window_bound (c : ℕ) (adm : List ℚ) (hok : StepOK c adm) (t : ℚ) :
    (adm.filter (fun x => decide (t - x < 1) && decide (x ≤ t))).length ≤ c := by
  induction adm using List.reverseRecOn with
  | nil => simp
  | append_singleton as a ih =>
    have hok_as : StepOK c as := stepOK_append_left c as [a] hok
    rw [List.filter_append]
    by_cases hwin : (decide (t - a < 1) && decide (a ≤ t)) = true
    · have hat : a ≤ t := by
        have := (Bool.and_eq_true _ _).mp hwin
        exact of_decide_eq_true this.2
      have hlast := hok as.length (by simp)
      have hget : (as ++ [a]).get ⟨as.length, by simp⟩ = a := by simp
      rw [hget, List.take_append_of_le_length (le_refl _), List.take_length] at hlast
      have hmono : (as.filter (fun x => decide (t - x < 1) && decide (x ≤ t))).length ≤
          (as.filter (fun x => decide (a - x < 1))).length := by
        apply List.Sublist.length_le
        apply List.monotone_filter_right
        intro x hx
        have hx' := (Bool.and_eq_true _ _).mp hx
        have h1 : t - x < 1 := of_decide_eq_true hx'.1
        have h2 : x ≤ t := of_decide_eq_true hx'.2
        exact decide_eq_true (by linarith)
      simp only [hwin, List.filter_cons, List.filter_nil, if_pos, List.length_append,
        List.length_cons, List.length_nil]
      omega
    · simp only [Bool.not_eq_true] at hwin
      simp only [List.filter_cons, hwin, List.filter_nil]
      simpa using ih hok_as

/-- **C3** — Rate-limiter admission: a check is admitted (and its time
recorded at the end of the kept window) iff the recorded timestamps
still inside the trailing 1-second window number strictly fewer than
`max_per_second + burst_allowance`; on rejection the state is only the
pruned window, with nothing recorded.  Consequently, along any run from
a fresh limiter at nondecreasing check times with an integral cap `c`,
every trailing 1-second window contains at most `c` admitted calls. -/
theorem rate_limiter_admission (rl : RateLimiter) (now : ℚ) (mps : ℚ) (ba c : ℕ)
    (times : List ℚ) (t : ℚ) (hc : mps + (ba : ℚ) = (c : ℚ))
    (hsort : times.Pairwise (· ≤ ·)) :
    ((rl.is_allowed now).1 = true ↔
      ((rl.timestamps.filter (fun x => decide (now - x < 1))).length : ℚ) <
        rl.maxPerSecond + rl.burstAllowance) ∧
    ((rl.is_allowed now).1 = true →
      (rl.is_allowed now).2.timestamps =
        rl.timestamps.filter (fun x => decide (now - x < 1)) ++ [now]) ∧
    ((rl.is_allowed now).1 = false →
      (rl.is_allowed now).2.timestamps =
        rl.timestamps.filter (fun x => decide (now - x < 1))) ∧
    ((rlRun ⟨mps, ba, []⟩ times).2.filter
        (fun x => decide (t - x < 1) && decide (x ≤ t))).length ≤ c := by
  refine ⟨?_, ?_, ?_, ?_⟩
  · simp only [RateLimiter.is_allowed]
    by_cases hd : rl.maxPerSecond + (rl.burstAllowance : ℚ) ≤
        ((rl.timestamps.filter (fun x => decide (now - x < 1))).length : ℚ)
    · rw [if_pos hd]
      simp [not_lt.mpr hd]
    · rw [if_neg hd]
      simp [lt_of_not_ge hd]
  · intro h
    simp only [RateLimiter.is_allowed] at h ⊢
    by_cases hd : rl.maxPerSecond + (rl.burstAllowance : ℚ) ≤
        ((rl.timestamps.filter (fun x => decide (now - x < 1))).length : ℚ)
    · rw [if_pos hd] at h
      exact absurd h (by simp)
    · rw [if_neg hd]
  · intro h
    simp only [RateLimiter.is_allowed] at h ⊢
    by_cases hd : rl.maxPerSecond + (rl.burstAllowance : ℚ) ≤
        ((rl.timestamps.filter (fun x => decide (now - x < 1))).length : ℚ)
    · rw [if_pos hd]
    · rw [if_neg hd] at h
      exact absurd h (by simp)
  · cases times with
    | nil => simp [rlRun]
    | cons t1 ts =>
      have hok : StepOK c ([] ++ (rlRun ⟨mps, ba, []⟩ (t1 :: ts)).2) := by
        refine rlRun_stepOK mps ba c hc (t1 :: ts) [] [] t1 hsort ?_ ?_ ?_ (stepOK_nil c)
        · intro x hx
          rcases List.mem_cons.mp hx with h | h
          · exact le_of_eq h.symm
          · exact (List.pairwise_cons.mp hsort).1 x h
        · intro u _
          rfl
        · intro x hx
          exact absurd hx (List.not_mem_nil x)
      rw [List.nil_append] at hok
      exact stepOK_window_bound c _ hok t

/-- Witness for `rate_limiter_admission`: the `ping` limiter
(rate 1, burst 0) checked at times 0, 1/2 and 3/2 — at most one
admission in the window ending at 3/2. -/
theorem rate_limiter_admission_witness :
    ((rlRun ⟨1, 0, []⟩ [0, 1/2, 3/2]).2.filter
        (fun x => decide ((3:ℚ)/2 - x < 1) && decide (x ≤ (3:ℚ)/2))).length ≤ 1 :=
  (rate_limiter_admission ⟨1, 0, []⟩ 0 1 0 1 [0, 1/2, 3/2] (3/2) (by norm_num)
    (by norm_num)).2.2.2

/-! ### Scheduler: association-list and task lemmas -/

theorem lookupSave_mem (d : String) (e : PendingSave) (saves : List (String × PendingSave))
    (h : lookupSave d saves = some e) : (d, e) ∈ saves := by
  unfold lookupSave at h
  cases hf : saves.find? (fun p => p.1 == d) with
  | none => rw [hf] at h; exact absurd h (by simp)
  | some q =>
    rw [hf] at h
    have hq : q ∈ saves := List.mem_of_find?_eq_some hf
    have hqd : q.1 = d := by
      have := List.find?_some hf
      exact beq_iff_eq.mp (by simpa using this)
    have hqe : q.2 = e := by simpa using h
    have : q = (d, e) := Prod.ext hqd hqe
    exact this ▸ hq

theorem lookupSave_of_mem_nodup (d : String) (e : PendingSave)
    (saves : List (String × PendingSave)) (hnd : (saves.map Prod.fst).Nodup)
    (hmem : (d, e) ∈ saves) : lookupSave d saves = some e := by
  induction saves with
  | nil => exact absurd hmem (List.not_mem_nil _)
  | cons q qs ih =>
    rw [List.map_cons, List.nodup_cons] at hnd
    rcases List.mem_cons.mp hmem with h | h
    · subst h
      simp [lookupSave]
    · have hq1 : ¬(q.1 == d) = true := by
        intro hbeq
        have : q.1 = d := beq_iff_eq.mp hbeq
        exact hnd.1 (this ▸ List.mem_map_of_mem Prod.fst h)
      have hih := ih hnd.2 h
      have hfind : (q :: qs).find? (fun p => p.1 == d) = qs.find? (fun p => p.1 == d) :=
        List.find?_cons_of_neg _ hq1
      unfold lookupSave at hih ⊢
      rw [hfind]
      exact hih

theorem lookupSave_none (d : String) (saves : List (String × PendingSave))
    (h : lookupSave d saves = none) : ∀ p ∈ saves, p.1 ≠ d := by
  intro p hp hpd
  unfold lookupSave at h
  rw [Option.map_eq_none', List.find?_eq_none] at h
  exact h p hp (by simp [hpd])

theorem nodupKeys_eq_of_mem (saves : List (String × PendingSave))
    (hnd : (saves.map Prod.fst).Nodup) (p q : String × PendingSave)
    (hp : p ∈ saves) (hq : q ∈ saves) (hpq : p.1 = q.1) : p = q := by
  have := List.inj_on_of_nodup_map hnd hp hq hpq
  exact this

theorem mem_setSave_self (d : String) (e : PendingSave)
    (saves : List (String × PendingSave)) : (d, e) ∈ setSave d e saves := by
  unfold setSave
  by_cases hc : (saves.map Prod.fst).contains d
  · rw [if_pos hc]
    rcases List.contains_iff_exists_mem_beq.mp hc with ⟨k, hk, hbeq⟩
    rcases List.mem_map.mp hk with ⟨p, hp, hp1⟩
    have hdk : d = k := beq_iff_eq.mp hbeq
    have hpd : (p.1 == d) = true := by simp [hp1, hdk]
    refine List.mem_map.mpr ⟨p, hp, ?_⟩
    simp [hpd]
  · rw [if_neg hc]
    exact List.mem_append_right _ (List.mem_singleton.mpr rfl)

theorem mem_setSave_elim (d : String) (e : PendingSave)
    (saves : List (String × PendingSave)) (p : String × PendingSave)
    (h : p ∈ setSave d e saves) : p = (d, e) ∨ (p ∈ saves ∧ p.1 ≠ d) := by
  unfold setSave at h
  by_cases hc : (saves.map Prod.fst).contains d
  · rw [if_pos hc] at h
    rcases List.mem_map.mp h with ⟨q, hq, hqe⟩
    by_cases hqd : (q.1 == d) = true
    · rw [if_pos hqd] at hqe
      exact Or.inl hqe.symm
    · rw [if_neg hqd] at hqe
      refine Or.inr ⟨hqe ▸ hq, ?_⟩
      rw [← hqe]
      intro hcon
      exact hqd (by simp [hcon])
  · rw [if_neg hc] at h
    rcases List.mem_append.mp h with h | h
    · refine Or.inr ⟨h, ?_⟩
      intro hcon
      exact hc (List.contains_iff_exists_mem_beq.mpr
        ⟨p.1, List.mem_map_of_mem Prod.fst h, by simp [hcon]⟩)
    · exact Or.inl (List.mem_singleton.mp h)

theorem mem_setSave_of_ne (d : String) (e : PendingSave)
    (saves : List (String × PendingSave)) (p : String × PendingSave)
    (hp : p ∈ saves) (hne : p.1 ≠ d) : p ∈ setSave d e saves := by
  unfold setSave
  by_cases hc : (saves.map Prod.fst).contains d
  · rw [if_pos hc]
    refine List.mem_map.mpr ⟨p, hp, ?_⟩
    rw [if_neg (by simp [hne])]
  · rw [if_neg hc]
    exact List.mem_append_left _ hp

theorem setSave_keys_nodup (d : String) (e : PendingSave)
    (saves : List (String × PendingSave)) (hnd : (saves.map Prod.fst).Nodup) :
    ((setSave d e saves).map Prod.fst).Nodup := by
  unfold setSave
  by_cases hc : (saves.map Prod.fst).contains d
  · rw [if_pos hc]
    have : (saves.map (fun p => if p.1 == d then (d, e) else p)).map Prod.fst =
        saves.map Prod.fst := by
      rw [List.map_map]
      apply List.map_congr_left
      intro p _
      by_cases hpd : (p.1 == d) = true
      · simp only [Function.comp_apply, if_pos hpd]
        exact (beq_iff_eq.mp hpd).symm
      · simp only [Function.comp_apply, if_neg hpd]
    rw [this]
    exact hnd
  · rw [if_neg hc]
    rw [List.map_append, List.nodup_append]
    refine ⟨hnd, List.nodup_singleton d, ?_⟩
    intro k hk
    simp only [List.map_cons, List.map_nil, List.mem_singleton]
    intro hkd
    subst hkd
    exact hc (List.contains_iff_exists_mem_beq.mpr ⟨k, hk, by simp⟩)

theorem mem_eraseSave (d : String) (saves : List (String × PendingSave))
    (p : String × PendingSave) :
    p ∈ eraseSave d saves ↔ p ∈ saves ∧ p.1 ≠ d := by
  unfold eraseSave
  rw [List.mem_filter]
  constructor
  · rintro ⟨h1, h2⟩
    refine ⟨h1, ?_⟩
    intro hcon
    simp [hcon] at h2
  · rintro ⟨h1, h2⟩
    exact ⟨h1, by simp [h2]⟩

theorem eraseSave_keys_nodup (d : String) (saves : List (String × PendingSave))
    (hnd : (saves.map Prod.fst).Nodup) : ((eraseSave d saves).map Prod.fst).Nodup :=
  ((List.filter_sublist saves).map Prod.fst).nodup hnd

theorem cancelTask_length (tid : ℕ) (tasks : List SaveTask) :
    (cancelTask tid tasks).length = tasks.length := by
  unfold cancelTask
  cases tasks[tid]? with
  | none => rfl
  | some t =>
    by_cases ht : t.live
    · simp [ht]
    · simp [ht]

theorem cancelTask_eq_of_none (tid : ℕ) (tasks : List SaveTask)
    (htid : tasks[tid]? = none) : cancelTask tid tasks = tasks := by
  unfold cancelTask
  rw [htid]

theorem cancelTask_eq_of_live (tid : ℕ) (tasks : List SaveTask) (t : SaveTask)
    (htid : tasks[tid]? = some t) (ht : t.live = true) :
    cancelTask tid tasks = tasks.set tid ⟨t.doc, t.user, t.payload, t.fireAt, false⟩ := by
  unfold cancelTask
  rw [htid]
  simp [ht]

theorem cancelTask_eq_of_dead (tid : ℕ) (tasks : List SaveTask) (t : SaveTask)
    (htid : tasks[tid]? = some t) (ht : ¬t.live = true) :
    cancelTask tid tasks = tasks := by
  unfold cancelTask
  rw [htid]
  simp [ht]

theorem cancelTask_getElem_ne (tid : ℕ) (tasks : List SaveTask) (i : ℕ) (h : i ≠ tid) :
    (cancelTask tid tasks)[i]? = tasks[i]? := by
  cases htid : tasks[tid]? with
  | none => rw [cancelTask_eq_of_none tid tasks htid]
  | some t =>
    by_cases ht : t.live
    · rw [cancelTask_eq_of_live tid tasks t htid ht]
      exact List.getElem?_set_ne (fun hh => h hh.symm)
    · rw [cancelTask_eq_of_dead tid tasks t htid ht]

theorem cancelTask_doc_preserved (tid : ℕ) (tasks : List SaveTask) (i : ℕ)
    (tk' : SaveTask) (h : (cancelTask tid tasks)[i]? = some tk') :
    ∃ tk, tasks[i]? = some tk ∧ tk'.doc = tk.doc := by
  by_cases hi : i = tid
  · subst hi
    cases htid : tasks[i]? with
    | none =>
      rw [cancelTask_eq_of_none i tasks htid] at h
      rw [← htid]
      exact ⟨tk', h, rfl⟩
    | some t =>
      rw [← htid]
      by_cases ht : t.live
      · rw [cancelTask_eq_of_live i tasks t htid ht] at h
        have hlt : i < tasks.length := (List.getElem?_eq_some.mp htid).1
        rw [List.getElem?_set_self hlt] at h
        exact ⟨t, htid, by cases h; rfl⟩
      · rw [cancelTask_eq_of_dead i tasks t htid ht] at h
        exact ⟨tk', h, rfl⟩
  · rw [cancelTask_getElem_ne tid tasks i hi] at h
    exact ⟨tk', h, rfl⟩

/-! ### Scheduler invariant (C2) -/

/-- Reachable-state invariant of the debounced scheduler: the
`debounced_saves` dict has no duplicate document keys, each entry points
at a task of its own document, and every live task is pointed at by its
document's entry. -/
structure SchedInv (s : SchedState) : Prop where
  keysNodup : (s.saves.map Prod.fst).Nodup
  entriesValid : ∀ p ∈ s.saves, ∃ tk, s.tasks[p.2.taskId]? = some tk ∧ tk.doc = p.1
  livePointed : ∀ i tk, s.tasks[i]? = some tk → tk.live = true →
    ∃ p ∈ s.saves, p.1 = tk.doc ∧ p.2.taskId = i

theorem schedInv_init : SchedInv ⟨[], [], []⟩ := by
  refine ⟨List.nodup_nil, ?_, ?_⟩
  · intro p hp
    exact absurd hp (List.not_mem_nil p)
  · intro i tk h _
    simp at h

theorem fireTask_inv (db : DynamoService) (now : ℚ) (s : SchedState) (i : ℕ)
    (hinv : SchedInv s) : SchedInv (fireTask db now s i) := by
  unfold fireTask
  split
  · exact hinv
  rename_i t hi
  split
  case isFalse => exact hinv
  case isTrue hfire =>
    have htlive : t.live = true := ((Bool.and_eq_true _ _).mp hfire).1
    have hlt : i < s.tasks.length := (List.getElem?_eq_some.mp hi).1
    refine ⟨eraseSave_keys_nodup t.doc s.saves hinv.keysNodup, ?_, ?_⟩
    · intro p hp
      have hp' := (mem_eraseSave t.doc s.saves p).mp hp
      rcases hinv.entriesValid p hp'.1 with ⟨tk, htk, hdoc⟩
      have hne : p.2.taskId ≠ i := by
        intro hcon
        rw [hcon, hi] at htk
        cases htk
        exact hp'.2 hdoc.symm
      refine ⟨tk, ?_, hdoc⟩
      rw [List.getElem?_set_ne (fun hh => hne hh.symm)]
      exact htk
    · intro j tk' hj hlive
      by_cases hji : j = i
      · subst hji
        rw [List.getElem?_set_self hlt] at hj
        cases hj
        simp at hlive
      · rw [List.getElem?_set_ne (fun hh => hji hh.symm)] at hj
        rcases hinv.livePointed j tk' hj hlive with ⟨p, hp, hpdoc, hptid⟩
        refine ⟨p, ?_, hpdoc, hptid⟩
        rw [mem_eraseSave]
        refine ⟨hp, ?_⟩
        intro hcon
        -- p is the entry of doc t.doc with task j, but the firing live
        -- task t at index i is also pointed at by the entry of t.doc
        rcases hinv.livePointed i t hi htlive with ⟨q, hq, hqdoc, hqtid⟩
        have : p = q := nodupKeys_eq_of_mem s.saves hinv.keysNodup p q hp hq
          (by rw [hcon, hqdoc])
        exact hji (by rw [← hptid, this, hqtid])

theorem foldl_inv {α β : Type} (P : α → Prop) (f : α → β → α)
    (hf : ∀ a b, P a → P (f a b)) : ∀ (l : List β) (a : α), P a → P (l.foldl f a) := by
  intro l
  induction l with
  | nil => intro a ha; exact ha
  | cons b bs ih => intro a ha; exact ih (f a b) (hf a b ha)

theorem advanceTime_inv (db : DynamoService) (now : ℚ) (s : SchedState)
    (hinv : SchedInv s) : SchedInv (advanceTime db now s) := by
  unfold advanceTime
  exact foldl_inv SchedInv (fireTask db now) (fun a b ha => fireTask_inv db now a b ha)
    (List.range s.tasks.length) s hinv

theorem getElem?_append_lt {α : Type} (l l' : List α) (j : ℕ) (h : j < l.length) :
    (l ++ l')[j]? = l[j]? := by
  rw [List.getElem?_append]
  simp [h]

theorem getElem?_concat_self {α : Type} (l : List α) (a : α) :
    (l ++ [a])[l.length]? = some a := by
  rw [List.getElem?_append_right (le_refl _)]
  simp

theorem cancelTask_live_preserved (tid : ℕ) (tasks : List SaveTask) (j : ℕ)
    (tk' : SaveTask) (h : (cancelTask tid tasks)[j]? = some tk')
    (hlive : tk'.live = true) : tasks[j]? = some tk' := by
  by_cases hj : j = tid
  · subst hj
    cases htid : tasks[j]? with
    | none =>
      rw [cancelTask_eq_of_none j tasks htid] at h
      rw [← htid]
      exact h
    | some t =>
      rw [← htid]
      by_cases ht : t.live
      · rw [cancelTask_eq_of_live j tasks t htid ht] at h
        have hlt : j < tasks.length := (List.getElem?_eq_some.mp htid).1
        rw [List.getElem?_set_self hlt] at h
        cases h
        simp at hlive
      · rw [cancelTask_eq_of_dead j tasks t htid ht] at h
        exact h
  · rw [cancelTask_getElem_ne tid tasks j hj] at h
    exact h

/-- Core preservation step shared by both branches of
`debounced_save_diagram`: appending the fresh live task and re-pointing
the dict entry of `d` keeps the invariant, provided the prior task list
`T1` kept lengths and docs, only lost liveness, and retains no live task
for `d`. -/
theorem schedInv_extend (s : SchedState) (hinv : SchedInv s) (d u : String)
    (payload : ℕ) (now : ℚ) (T1 : List SaveTask)
    (hlen : T1.length = s.tasks.length)
    (hdoc : ∀ (i : ℕ) (tk1 : SaveTask), T1[i]? = some tk1 →
      ∃ tk : SaveTask, s.tasks[i]? = some tk ∧ tk1.doc = tk.doc)
    (hlive : ∀ (j : ℕ) (tk1 : SaveTask), T1[j]? = some tk1 → tk1.live = true →
      s.tasks[j]? = some tk1)
    (hnotlive : ∀ (j : ℕ) (tk1 : SaveTask), T1[j]? = some tk1 → tk1.live = true →
      tk1.doc ≠ d) :
    SchedInv ⟨T1 ++ [⟨d, u, payload, now + 5, true⟩],
      setSave d ⟨now, payload, T1.length⟩ s.saves, s.writes⟩ := by
  refine ⟨setSave_keys_nodup d _ s.saves hinv.keysNodup, ?_, ?_⟩
  · intro p hp
    rcases mem_setSave_elim d _ s.saves p hp with hpe | ⟨hmem, hne⟩
    · subst hpe
      exact ⟨⟨d, u, payload, now + 5, true⟩, getElem?_concat_self T1 _, rfl⟩
    · rcases hinv.entriesValid p hmem with ⟨tk, htk, hdocp⟩
      have htid : p.2.taskId < T1.length := by
        rw [hlen]
        exact (List.getElem?_eq_some.mp htk).1
      have hT1 : T1[p.2.taskId]? = some (T1.get ⟨p.2.taskId, htid⟩) := by
        rw [List.getElem?_eq_getElem htid]
        rfl
      rcases hdoc p.2.taskId _ hT1 with ⟨tk0, htk0, hd0⟩
      have htk0' : tk0 = tk := by
        rw [htk] at htk0
        exact (Option.some.injEq _ _).mp htk0.symm
      refine ⟨T1.get ⟨p.2.taskId, htid⟩, ?_, ?_⟩
      · rw [getElem?_append_lt T1 _ _ htid]
        exact hT1
      · rw [hd0, htk0', hdocp]
  · intro j tk' hj hlive'
    rcases Nat.lt_trichotomy j T1.length with hlt | heq | hgt
    · rw [getElem?_append_lt T1 _ _ hlt] at hj
      have hdocd : tk'.doc ≠ d := hnotlive j tk' hj hlive'
      have hsj : s.tasks[j]? = some tk' := hlive j tk' hj hlive'
      rcases hinv.livePointed j tk' hsj hlive' with ⟨p, hp, hpdoc, hptid⟩
      exact ⟨p, mem_setSave_of_ne d _ s.saves p hp (by rw [hpdoc]; exact hdocd),
        hpdoc, hptid⟩
    · subst heq
      rw [getElem?_concat_self T1 _] at hj
      have htk : tk' = ⟨d, u, payload, now + 5, true⟩ :=
        ((Option.some.injEq _ _).mp hj).symm
      subst htk
      exact Exists.intro ((d, (⟨now, payload, T1.length⟩ : PendingSave)) : String × PendingSave)
        (And.intro (mem_setSave_self d ⟨now, payload, T1.length⟩ s.saves) (And.intro rfl rfl))
    · have : (T1 ++ [(⟨d, u, payload, now + 5, true⟩ : SaveTask)]).length ≤ j := by
        simp only [List.length_append, List.length_cons, List.length_nil]
        omega
      rw [List.getElem?_eq_none this] at hj
      exact absurd hj (by simp)

theorem debounced_save_inv (d u : String) (payload : ℕ) (now : ℚ) (s : SchedState)
    (hinv : SchedInv s) : SchedInv (debounced_save_diagram d u payload now s) := by
  cases hlk : lookupSave d s.saves with
  | none =>
    have hs' : debounced_save_diagram d u payload now s =
        ⟨s.tasks ++ [⟨d, u, payload, now + 5, true⟩],
          setSave d ⟨now, payload, s.tasks.length⟩ s.saves, s.writes⟩ := by
      simp only [debounced_save_diagram, hlk]
    rw [hs']
    refine schedInv_extend s hinv d u payload now s.tasks rfl ?_ ?_ ?_
    · intro i tk1 h
      exact ⟨tk1, h, rfl⟩
    · intro j tk1 h _
      exact h
    · intro j tk1 h hl hdocd
      rcases hinv.livePointed j tk1 h hl with ⟨p, hp, hpdoc, _⟩
      have := lookupSave_of_mem_nodup d p.2 s.saves hinv.keysNodup ?_
      · rw [hlk] at this
        exact absurd this (by simp)
      · have : p = (d, p.2) := Prod.ext (by rw [hpdoc, hdocd]) rfl
        rw [← this]
        exact hp
  | some e0 =>
    have hs' : debounced_save_diagram d u payload now s =
        ⟨cancelTask e0.taskId s.tasks ++ [⟨d, u, payload, now + 5, true⟩],
          setSave d ⟨now, payload, (cancelTask e0.taskId s.tasks).length⟩ s.saves,
          s.writes⟩ := by
      simp only [debounced_save_diagram, hlk]
    rw [hs']
    refine schedInv_extend s hinv d u payload now (cancelTask e0.taskId s.tasks)
      (cancelTask_length e0.taskId s.tasks) ?_ ?_ ?_
    · intro i tk1 h
      exact cancelTask_doc_preserved e0.taskId s.tasks i tk1 h
    · intro j tk1 h hl
      exact cancelTask_live_preserved e0.taskId s.tasks j tk1 h hl
    · intro j tk1 h hl hdocd
      have hsj : s.tasks[j]? = some tk1 :=
        cancelTask_live_preserved e0.taskId s.tasks j tk1 h hl
      rcases hinv.livePointed j tk1 hsj hl with ⟨p, hp, hpdoc, hptid⟩
      have hpd : p = (d, p.2) := Prod.ext (by rw [hpdoc, hdocd]) rfl
      have hlkp : lookupSave d s.saves = some p.2 :=
        lookupSave_of_mem_nodup d p.2 s.saves hinv.keysNodup (hpd ▸ hp)
      rw [hlk] at hlkp
      have he0 : e0 = p.2 := (Option.some.injEq _ _).mp hlkp
      have hjtid : e0.taskId = j := by rw [he0, hptid]
      rw [hjtid, cancelTask_eq_of_live j s.tasks tk1 hsj hl,
        List.getElem?_set_self (List.getElem?_eq_some.mp hsj).1] at h
      have hfalse := (Option.some.injEq _ _).mp h
      rw [← hfalse] at hl
      simp at hl

theorem schedStep_inv (db : DynamoService) (s : SchedState) (e : SchedEvent)
    (hinv : SchedInv s) : SchedInv (schedStep db s e) := by
  cases e with
  | save d u p t => exact debounced_save_inv d u p t _ (advanceTime_inv db t s hinv)
  | advance t => exact advanceTime_inv db t s hinv

theorem schedRun_inv (db : DynamoService) (evs : List SchedEvent) :
    SchedInv (schedRun db evs) := by
  unfold schedRun
  exact foldl_inv SchedInv (schedStep db) (fun a b ha => schedStep_inv db a b ha)
    evs ⟨[], [], []⟩ schedInv_init

/-- **C2** — Pending-save invariant: in every state the scheduler can
reach from its initial state through any sequence of
`debounced_save_diagram` calls and clock advances, the
`debounced_saves` dict has at most one entry per document (its keys are
duplicate-free) and no two distinct live delayed-write tasks exist for
the same document — each new call cancelled the previous pending task
before installing its replacement. -/
theorem pending_save_unique (db : DynamoService) (evs : List SchedEvent) :
    ((schedRun db evs).saves.map Prod.fst).Nodup ∧
    (∀ (i j : ℕ) (ti tj : SaveTask), (schedRun db evs).tasks[i]? = some ti →
      (schedRun db evs).tasks[j]? = some tj → ti.live = true → tj.live = true →
      ti.doc = tj.doc → i = j) := by
  have hinv := schedRun_inv db evs
  refine ⟨hinv.keysNodup, ?_⟩
  intro i j ti tj hi hj hli hlj hdoc
  rcases hinv.livePointed i ti hi hli with ⟨p, hp, hpdoc, hptid⟩
  rcases hinv.livePointed j tj hj hlj with ⟨q, hq, hqdoc, hqtid⟩
  have hpq : p = q := nodupKeys_eq_of_mem _ hinv.keysNodup p q hp hq
    (by rw [hpdoc, hqdoc, hdoc])
  rw [← hptid, hpq, hqtid]

/-- Witness for `pending_save_unique`: one save to document `D`; the
dict keys are duplicate-free and the single live task is unique. -/
theorem pending_save_unique_witness :
    ((schedRun ⟨fun _ _ => none, fun _ => [], fun _ _ => none⟩
        [SchedEvent.save "D" "U" 1 0]).saves.map Prod.fst).Nodup ∧ (0 : ℕ) = 0 :=
  ⟨(pending_save_unique ⟨fun _ _ => none, fun _ => [], fun _ _ => none⟩
      [SchedEvent.save "D" "U" 1 0]).1,
   (pending_save_unique ⟨fun _ _ => none, fun _ => [], fun _ _ => none⟩
      [SchedEvent.save "D" "U" 1 0]).2 0 0
     ⟨"D", "U", 1, 0 + 5, true⟩ ⟨"D", "U", 1, 0 + 5, true⟩ rfl rfl rfl rfl rfl⟩

/-! ### Debounce coalescing (C1) -/

theorem foldl_fixed {α β : Type} (f : α → β → α) (a : α) :
    ∀ l : List β, (∀ b ∈ l, f a b = a) → l.foldl f a = a := by
  intro l
  induction l with
  | nil => intro _; rfl
  | cons b bs ih =>
    intro h
    rw [List.foldl_cons, h b (List.mem_cons_self b bs)]
    exact ih (fun c hc => h c (List.mem_cons_of_mem b hc))

theorem fireTask_eq_of_none (db : DynamoService) (now : ℚ) (s : SchedState) (i : ℕ)
    (hi : s.tasks[i]? = none) : fireTask db now s i = s := by
  unfold fireTask
  rw [hi]

theorem fireTask_eq_skip (db : DynamoService) (now : ℚ) (s : SchedState) (i : ℕ)
    (t : SaveTask) (hi : s.tasks[i]? = some t)
    (hg : (t.live && decide (t.fireAt ≤ now)) = false) : fireTask db now s i = s := by
  unfold fireTask
  rw [hi]
  simp [hg]

theorem fireTask_eq_fire (db : DynamoService) (now : ℚ) (s : SchedState) (i : ℕ)
    (t : SaveTask) (hi : s.tasks[i]? = some t)
    (hg : (t.live && decide (t.fireAt ≤ now)) = true) :
    fireTask db now s i =
      { tasks := s.tasks.set i ⟨t.doc, t.user, t.payload, t.fireAt, false⟩,
        saves := eraseSave t.doc s.saves,
        writes := s.writes ++
          (match resolveOwner db t.user t.doc with
           | some owner => [(owner, t.doc, t.payload)]
           | none => []) } := by
  unfold fireTask
  rw [hi]
  simp [hg]

/-- State shape maintained during a same-document burst: all earlier
tasks are cancelled, exactly the latest task is live and due at `t + 5`,
the dict holds exactly that entry, and nothing has been written. -/
def BurstState (d u : String) (t : ℚ) (p : ℕ) (s : SchedState) : Prop :=
  ∃ pre : List SaveTask,
    s.tasks = pre ++ [⟨d, u, p, t + 5, true⟩] ∧ (∀ tk ∈ pre, tk.live = false) ∧
    s.saves = [(d, ⟨t, p, pre.length⟩)] ∧ s.writes = []

theorem burst_advance_noop (db : DynamoService) (d u : String) (t : ℚ) (p : ℕ)
    (now : ℚ) (s : SchedState) (hb : BurstState d u t p s) (hnow : now < t + 5) :
    advanceTime db now s = s := by
  obtain ⟨pre, htasks, hdead, _, _⟩ := hb
  apply foldl_fixed
  intro i hi
  rw [List.mem_range, htasks, List.length_append, List.length_cons,
    List.length_nil] at hi
  rcases Nat.lt_trichotomy i pre.length with hlt | heq | hgt
  · have hsome : s.tasks[i]? = some (pre.get ⟨i, hlt⟩) := by
      rw [htasks, getElem?_append_lt _ _ _ hlt, List.getElem?_eq_getElem hlt]
      rfl
    refine fireTask_eq_skip db now s i _ hsome ?_
    rw [hdead _ (pre.get_mem i hlt)]
    rfl
  · subst heq
    have hsome : s.tasks[pre.length]? = some ⟨d, u, p, t + 5, true⟩ := by
      rw [htasks]
      exact getElem?_concat_self pre _
    refine fireTask_eq_skip db now s pre.length _ hsome ?_
    simp [not_le.mpr hnow]
  · omega

theorem burst_save (d u : String) (t : ℚ) (p : ℕ) (t' : ℚ) (p' : ℕ) (s : SchedState)
    (hb : BurstState d u t p s) :
    BurstState d u t' p' (debounced_save_diagram d u p' t' s) := by
  obtain ⟨pre, htasks, hdead, hsaves, hwrites⟩ := hb
  have hlk : lookupSave d s.saves = some ⟨t, p, pre.length⟩ := by
    rw [hsaves]
    simp [lookupSave]
  have htarget : s.tasks[pre.length]? = some ⟨d, u, p, t + 5, true⟩ := by
    rw [htasks]
    exact getElem?_concat_self pre _
  have hcancel : cancelTask pre.length s.tasks = pre ++ [⟨d, u, p, t + 5, false⟩] := by
    rw [cancelTask_eq_of_live pre.length s.tasks _ htarget rfl, htasks,
      List.set_append_right _ _ (le_refl _)]
    simp
  have hs' : debounced_save_diagram d u p' t' s =
      ⟨(pre ++ [⟨d, u, p, t + 5, false⟩]) ++ [⟨d, u, p', t' + 5, true⟩],
        setSave d ⟨t', p', pre.length + 1⟩ s.saves, s.writes⟩ := by
    simp only [debounced_save_diagram, hlk, hcancel, List.length_append,
      List.length_cons, List.length_nil]
  rw [hs']
  refine ⟨pre ++ [⟨d, u, p, t + 5, false⟩], by rw [List.append_assoc], ?_, ?_, hwrites⟩
  · intro tk htk
    rcases List.mem_append.mp htk with h | h
    · exact hdead tk h
    · rw [List.mem_singleton.mp h]
  · show setSave d ⟨t', p', pre.length + 1⟩ s.saves = _
    rw [hsaves]
    simp [setSave, List.length_append]

theorem burst_init (db : DynamoService) (d u : String) (p : ℕ) (t : ℚ) :
    BurstState d u t p (schedStep db ⟨[], [], []⟩ (SchedEvent.save d u p t)) := by
  have hadv : advanceTime db t ⟨[], [], []⟩ = ⟨[], [], []⟩ := rfl
  show BurstState d u t p (debounced_save_diagram d u p t (advanceTime db t ⟨[], [], []⟩))
  rw [hadv]
  refine ⟨[], ?_, ?_, ?_, ?_⟩
  · rfl
  · intro tk htk
    exact absurd htk (List.not_mem_nil tk)
  · rfl
  · rfl

theorem burst_final (db : DynamoService) (d u : String) (t : ℚ) (p : ℕ)
    (s : SchedState) (hb : BurstState d u t p s) (T : ℚ) (hT : t + 5 ≤ T)
    (o : String) (ho : resolveOwner db u d = some o) :
    (advanceTime db T s).writes = [(o, d, p)] := by
  obtain ⟨pre, htasks, hdead, hsaves, hwrites⟩ := hb
  have hlen : s.tasks.length = pre.length + 1 := by
    rw [htasks]
    simp
  have htarget : s.tasks[pre.length]? = some ⟨d, u, p, t + 5, true⟩ := by
    rw [htasks]
    exact getElem?_concat_self pre _
  unfold advanceTime
  rw [hlen, List.range_succ, List.foldl_append]
  have hfix : (List.range pre.length).foldl (fireTask db T) s = s := by
    apply foldl_fixed
    intro i hi
    rw [List.mem_range] at hi
    have hsome : s.tasks[i]? = some (pre.get ⟨i, hi⟩) := by
      rw [htasks, getElem?_append_lt _ _ _ hi, List.getElem?_eq_getElem hi]
      rfl
    refine fireTask_eq_skip db T s i _ hsome ?_
    rw [hdead _ (pre.get_mem i hi)]
    rfl
  rw [hfix]
  simp only [List.foldl_cons, List.foldl_nil]
  rw [fireTask_eq_fire db T s pre.length ⟨d, u, p, t + 5, true⟩ htarget
    (by simp [hT])]
  simp [hwrites, ho]

theorem burst_process (db : DynamoService) (d u : String) :
    ∀ (ps : List (ℚ × ℕ)) (t : ℚ) (p : ℕ) (s : SchedState),
      BurstState d u t p s →
      List.Chain (fun a b => a.1 ≤ b.1 ∧ b.1 < a.1 + 5) (t, p) ps →
      BurstState d u (ps.getLastD (t, p)).1 (ps.getLastD (t, p)).2
        ((ps.map (fun tp => SchedEvent.save d u tp.2 tp.1)).foldl (schedStep db) s) := by
  intro ps
  induction ps with
  | nil =>
    intro t p s hb _
    simpa using hb
  | cons tp ps ih =>
    intro t p s hb hchain
    rw [List.chain_cons] at hchain
    have hadv : advanceTime db tp.1 s = s :=
      burst_advance_noop db d u t p tp.1 s hb hchain.1.2
    have hstep : schedStep db s (SchedEvent.save d u tp.2 tp.1) =
        debounced_save_diagram d u tp.2 tp.1 s := by
      show debounced_save_diagram d u tp.2 tp.1 (advanceTime db tp.1 s) = _
      rw [hadv]
    have hb' : BurstState d u tp.1 tp.2 (debounced_save_diagram d u tp.2 tp.1 s) :=
      burst_save d u t p tp.1 tp.2 s hb
    simp only [List.map_cons, List.foldl_cons, hstep]
    have hrec := ih tp.1 tp.2 _ hb' hchain.2
    rw [List.getLastD_cons]
    exact hrec

/-- **C1** — Debounce coalescing: starting from the scheduler's initial
state, a burst of `N ≥ 1` `debounced_save_diagram` calls for document
`d` at nondecreasing times each less than 5 seconds after the previous
one, followed by the clock passing the last call's 5-second deadline,
produces exactly one write through the storage collaborator: the one for
`d`, addressed to the resolved owner `o`, carrying the payload of the
last call. -/
theorem debounce_coalescing (db : DynamoService) (d u o : String) (t0 : ℚ) (p0 : ℕ)
    (ps : List (ℚ × ℕ)) (T : ℚ)
    (hchain : List.Chain (fun a b => a.1 ≤ b.1 ∧ b.1 < a.1 + 5) (t0, p0) ps)
    (hT : (ps.getLastD (t0, p0)).1 + 5 ≤ T)
    (ho : resolveOwner db u d = some o) :
    (schedRun db (((t0, p0) :: ps).map (fun tp => SchedEvent.save d u tp.2 tp.1) ++
      [SchedEvent.advance T])).writes = [(o, d, (ps.getLastD (t0, p0)).2)] := by
  unfold schedRun
  rw [List.foldl_append, List.map_cons, List.foldl_cons]
  have h1 : BurstState d u t0 p0 (schedStep db ⟨[], [], []⟩ (SchedEvent.save d u p0 t0)) :=
    burst_init db d u p0 t0
  have h2 := burst_process db d u ps t0 p0 _ h1 hchain
  simp only [List.foldl_cons, List.foldl_nil]
  show (advanceTime db T _).writes = _
  exact burst_final db d u _ _ _ h2 T hT o ho

/-- Witness for `debounce_coalescing`: one save at time 0 for document
`D`, flushed at time 6; exactly one write with its payload reaches the
storage collaborator, addressed to owner `O`. -/
theorem debounce_coalescing_witness :
    (schedRun ⟨fun _ dg => some ⟨dg, "O"⟩, fun _ => [], fun _ _ => none⟩
      ([((0 : ℚ), (1 : ℕ))].map (fun tp => SchedEvent.save "D" "U" tp.2 tp.1) ++
        [SchedEvent.advance 6])).writes = [("O", "D", 1)] :=
  debounce_coalescing ⟨fun _ dg => some ⟨dg, "O"⟩, fun _ => [], fun _ _ => none⟩
    "D" "U" "O" 0 1 [] 6 List.Chain.nil (by norm_num [List.getLastD]) rfl

end Collab
